import Mathlib

/-!
Verification development for the DPPVI example scripts
(`notebooks/examples/utils.py` and `notebooks/examples/dp_logistic_regression.py`).

The Python source is shallowly embedded below:
* numeric values (floats) are modelled by `ℚ`;
* numpy arrays are modelled by `List`s, with the feature matrix and label
  vector fused into a single list of `(features, label)` rows, since the
  source always indexes them in lockstep;
* the global numpy random state is modelled by explicit state passing
  through an abstract generator interface `NpRandom`;
* Python exceptions are modelled by `Except` with explicit error codes.
-/

namespace DPPVI

universe u v

/-- `true` exactly when an `Except` value is an error (a Python exception). -/
def isErr {ε : Type u} {α : Type v} : Except ε α → Bool
  | .error _ => true
  | .ok _ => false

/-! ## Privacy-budget calibration (`utils.bin_search_sigma`, utils.py 555-572)

`fourier_accountant.get_epsilon_S` is an external library; it is modelled as an
abstract function `acct : ℚ → ℚ` from the candidate `sigma` to the resulting
epsilon (the parameters `target_delta, q, ncomp, nx, L` are fixed by the caller
and are absorbed into `acct`). -/

/-- Embedding of `utils.bin_search_sigma`'s loop: at each remaining iteration,
take the midpoint `cur = (ubound+lbound)/2`, evaluate the accountant, return
`cur` when within tolerance of the target epsilon, otherwise shrink the
bracket.  When the fuel (iteration budget) is exhausted the Python function
falls off the end of the loop and implicitly returns `None`, modelled by
`none`. -/
def bin_search_loop (acct : ℚ → ℚ) (target_eps tol : ℚ) :
    ℕ → ℚ → ℚ → Option ℚ
  | 0, _, _ => none
  | n + 1, lbound, ubound =>
    let cur := (ubound + lbound) / 2
    let eps := acct cur
    if |eps - target_eps| ≤ tol then some cur
    else if eps < target_eps then bin_search_loop acct target_eps tol n lbound cur
    else bin_search_loop acct target_eps tol n cur ubound

/-- Embedding of `utils.bin_search_sigma`: run the bisection loop for
`max_iters` iterations starting from the bracket `[lbound, ubound]`. -/
def bin_search_sigma (acct : ℚ → ℚ) (target_eps lbound ubound tol : ℚ)
    (max_iters : ℕ) : Option ℚ :=
  bin_search_loop acct target_eps tol max_iters lbound ubound

/-- Modelled from the spec: one bisection step as §4.4 words it — midpoint
`cur = (lower+upper)/2`, `eps = Accountant(cur)`; within tolerance return
`cur`; `eps < target` moves the upper bound to `cur`, otherwise the lower
bound moves to `cur`.  `Sum.inl` is "return this sigma", `Sum.inr` is the
narrowed bracket. -/
def spec_bisection_step (acct : ℚ → ℚ) (target_eps tol lower upper : ℚ) :
    Sum ℚ (ℚ × ℚ) :=
  let cur := (lower + upper) / 2
  let eps := acct cur
  if |eps - target_eps| ≤ tol then .inl cur
  else if eps < target_eps then .inr (lower, cur)
  else .inr (cur, upper)

/-- Modelled from the spec: the §4.4 bisection loop, iterating
`spec_bisection_step` at most `max_iters` times. -/
def spec_bisection (acct : ℚ → ℚ) (target_eps tol : ℚ) :
    ℕ → ℚ → ℚ → Option ℚ
  | 0, _, _ => none
  | n + 1, lower, upper =>
    match spec_bisection_step acct target_eps tol lower upper with
    | .inl c => some c
    | .inr (l2, u2) => spec_bisection acct target_eps tol n l2 u2

/-- C2: if `bin_search_sigma` hands any sigma at all to the caller, the
tolerance test `|eps - target_eps| ≤ tol` succeeded at that sigma; hence if
the loop exhausts `max_iters` iterations with the tolerance test never
succeeding, no usable sigma is returned (the function returns `none`, the
Python `None`), and a midpoint that failed the test is never silently
returned. -/
theorem bin_search_sigma_no_silent_result (acct : ℚ → ℚ)
    (target_eps lbound ubound tol : ℚ) (max_iters : ℕ) (c : ℚ)
    (h : bin_search_sigma acct target_eps lbound ubound tol max_iters = some c) :
    |acct c - target_eps| ≤ tol := by
  rw [bin_search_sigma] at h
  induction max_iters generalizing lbound ubound with
  | zero => exact Option.noConfusion h
  | succ n ih =>
    rw [bin_search_loop] at h
    by_cases h1 : |acct ((ubound + lbound) / 2) - target_eps| ≤ tol
    · simp only [h1, if_pos] at h
      obtain rfl : (ubound + lbound) / 2 = c := Option.some.injEq .. ▸ h
      exact h1
    · simp only [h1, if_false, if_neg] at h
      by_cases h2 : acct ((ubound + lbound) / 2) < target_eps
      · simp only [h2, if_pos] at h
        exact ih _ _ h
      · simp only [h2, if_false, if_neg] at h
        exact ih _ _ h

/-- Witness for C2 at a concrete accountant and bracket. -/
theorem bin_search_sigma_no_silent_result_witness :
    bin_search_sigma (fun s => 4 - s) 2 0 4 1 1 = some 2 ∧
      |(fun s : ℚ => 4 - s) 2 - 2| ≤ 1 :=
  ⟨by norm_num [bin_search_sigma, bin_search_loop],
    bin_search_sigma_no_silent_result (fun s => 4 - s) 2 0 4 1 1 2
      (by norm_num [bin_search_sigma, bin_search_loop])⟩

/-- C3: the loop of `bin_search_sigma` coincides, iteration by iteration,
with the bisection described by the spec: the candidate is the bracket
midpoint, epsilon is the accountant applied to it, within tolerance the
midpoint is returned immediately, `eps < target` moves the upper bound to
the midpoint and `eps ≥ target` moves the lower bound to it, the other
bound unchanged. -/
theorem bin_search_loop_eq_spec_bisection (acct : ℚ → ℚ) (target_eps tol : ℚ)
    (max_iters : ℕ) (lbound ubound : ℚ) :
    bin_search_loop acct target_eps tol max_iters lbound ubound =
      spec_bisection acct target_eps tol max_iters lbound ubound := by
  induction max_iters generalizing lbound ubound with
  | zero => rfl
  | succ n ih =>
    rw [bin_search_loop, spec_bisection, spec_bisection_step]
    simp only [add_comm lbound ubound]
    by_cases h1 : |acct ((ubound + lbound) / 2) - target_eps| ≤ tol
    · simp [h1]
    · by_cases h2 : acct ((ubound + lbound) / 2) < target_eps
      · simp [h1, h2, ih]
      · simp [h1, h2, ih]

/-! ## Setup-path configuration checks
(`dp_logistic_regression.main`, lines 60-93, and `utils.set_up_clients`,
lines 44-88)

Only the argument checking of `main` is modelled: everything between the
checks and the `set_up_clients` call (data loading, model construction) can
raise no configuration error.  The client classes constructed by
`set_up_clients` live in the external `pvi` package, so a client is modelled
by a tag naming the class that the source instantiates. -/

/-- Error codes for the configuration errors raised on the setup path. -/
inductive ConfigError : Type
  /-- `main` line 61 / line 93: `ValueError(f"Unknown dp_mode: ...")`. -/
  | unknownDpMode (s : String)
  /-- `main` line 64: `ValueError(f"Unknown model: ...")`. -/
  | unknownModel (s : String)
  /-- `main` line 78: `ValueError("Need to set at least one of batch_size, sampling_frac_q")`. -/
  | needBatchOrQ
  /-- `main` line 82: `ValueError("Exactly one of batch_size, sampling_frac_q needs to be None")`. -/
  | exactlyOneBatchQ
  /-- `set_up_clients` line 72: `NotImplementedError("user level DP not implemented")`. -/
  | userLevelNotImplemented
  /-- `set_up_clients` line 85: `ValueError(f"Unknown dp_mode: ...")`. -/
  | unknownDpModeClients (s : String)
deriving DecidableEq, Repr

/-- The client classes `set_up_clients` can instantiate (all defined in the
external `pvi` package). -/
inductive ClientKind : Type
  | LFA_Client
  | Local_PVI_Client
  | Param_DP_Client
  | DPSGD_Client
  | Client
deriving DecidableEq, Repr

/-- Embedding of the argument checks of `main`
(dp_logistic_regression.py lines 60-93): the `dp_mode` whitelist, the model
whitelist, and the `batch_size`/`sampling_frac_q` branch (whose non-error
branches only log). -/
def main_arg_checks (dp_mode model : String)
    (batch_size sampling_frac_q : Option ℚ) : Except ConfigError Unit :=
  if dp_mode ∉ ["nondp_batches", "nondp_epochs", "dpsgd", "param", "param_fixed",
      "server", "lfa", "local_pvi"] then
    .error (.unknownDpMode dp_mode)
  else if model ∉ ["pvi", "bcm_split", "bcm_same", "global_vi"] then
    .error (.unknownModel model)
  else if dp_mode ∈ ["dpsgd", "param_fixed"] then
    if sampling_frac_q.isSome ∧ batch_size.isSome then .ok ()
    else if sampling_frac_q.isSome then .ok ()
    else if batch_size.isSome then .ok ()
    else .error .needBatchOrQ
  else if dp_mode ∈ ["lfa", "local_pvi", "param"] then
    if batch_size.isSome ∧ sampling_frac_q.isSome then .error .exactlyOneBatchQ
    else .ok ()
  else if dp_mode ∈ ["nondp_batches"] then .ok ()
  else if dp_mode ∈ ["nondp_epochs"] then .ok ()
  else .error (.unknownDpMode dp_mode)

/-- Embedding of one iteration of the client loop of `utils.set_up_clients`
(utils.py lines 49-86): which client class is instantiated for a `dp_mode`,
or which exception is raised. -/
def set_up_client (dp_mode : String) (batch_size sampling_frac_q : Option ℚ) :
    Except ConfigError ClientKind :=
  if dp_mode ∈ ["lfa"] then .ok .LFA_Client
  else if dp_mode ∈ ["local_pvi"] then .ok .Local_PVI_Client
  else if dp_mode ∈ ["param"] then .ok .Param_DP_Client
  else if dp_mode ∈ ["dpsgd"] then
    if batch_size.isSome ∧ sampling_frac_q.isSome then .error .userLevelNotImplemented
    else .ok .DPSGD_Client
  else if dp_mode ∈ ["nondp_epochs", "nondp_batches"] then .ok .Client
  else .error (.unknownDpModeClients dp_mode)

/-- Embedding of `utils.set_up_clients` (utils.py lines 44-88): one client
per shard, the first offending shard raising. -/
def set_up_clients (dp_mode : String) (batch_size sampling_frac_q : Option ℚ)
    (n_clients : ℕ) : Except ConfigError (List ClientKind) :=
  (List.range n_clients).mapM fun _ => set_up_client dp_mode batch_size sampling_frac_q

/-- The setup path of a run: `main`'s argument checks followed by
`set_up_clients`, the sequence the source executes before any training
step. -/
def setup_path (dp_mode model : String) (batch_size sampling_frac_q : Option ℚ)
    (n_clients : ℕ) : Except ConfigError (List ClientKind) :=
  match main_arg_checks dp_mode model batch_size sampling_frac_q with
  | .error e => .error e
  | .ok _ => set_up_clients dp_mode batch_size sampling_frac_q n_clients

/-- C1 (counterexample): for the DP-sensitive mode `param` with *neither*
`batch_size` nor `sampling_frac_q` set, the setup path raises no error at
all — `main` only logs and `set_up_clients` happily builds a
`Param_DP_Client` — contradicting the claim that both-unset is a
configuration error for every DP-sensitive mode. -/
theorem setup_path_neither_set_counterexample :
    setup_path "param" "pvi" none none 1 = .ok [.Param_DP_Client] := rfl

/-- C1 (amended): exhaustive behaviour of the setup path over the five
DP-sensitive modes.  Both options set is an error in every mode (`param`,
`lfa`, `local_pvi` in `main`; `dpsgd` as a `NotImplementedError` and
`param_fixed` as an unknown-mode error in `set_up_clients`).  Neither option
set is an error only for `dpsgd` and `param_fixed`; `param`, `lfa` and
`local_pvi` proceed without error.  Exactly one option set is accepted by
`dpsgd`, `param`, `lfa` and `local_pvi`, but `param_fixed` always fails in
`set_up_clients`, which has no branch for it. -/
theorem setup_path_batch_q_cases (b q : ℚ) :
    (setup_path "dpsgd" "pvi" (some b) (some q) 1 = .error .userLevelNotImplemented) ∧
    (setup_path "param" "pvi" (some b) (some q) 1 = .error .exactlyOneBatchQ) ∧
    (setup_path "lfa" "pvi" (some b) (some q) 1 = .error .exactlyOneBatchQ) ∧
    (setup_path "local_pvi" "pvi" (some b) (some q) 1 = .error .exactlyOneBatchQ) ∧
    (setup_path "param_fixed" "pvi" (some b) (some q) 1 =
      .error (.unknownDpModeClients "param_fixed")) ∧
    (setup_path "dpsgd" "pvi" none none 1 = .error .needBatchOrQ) ∧
    (setup_path "param_fixed" "pvi" none none 1 = .error .needBatchOrQ) ∧
    (setup_path "param" "pvi" none none 1 = .ok [.Param_DP_Client]) ∧
    (setup_path "lfa" "pvi" none none 1 = .ok [.LFA_Client]) ∧
    (setup_path "local_pvi" "pvi" none none 1 = .ok [.Local_PVI_Client]) ∧
    (setup_path "dpsgd" "pvi" (some b) none 1 = .ok [.DPSGD_Client]) ∧
    (setup_path "dpsgd" "pvi" none (some q) 1 = .ok [.DPSGD_Client]) ∧
    (setup_path "param" "pvi" (some b) none 1 = .ok [.Param_DP_Client]) ∧
    (setup_path "param" "pvi" none (some q) 1 = .ok [.Param_DP_Client]) ∧
    (setup_path "lfa" "pvi" (some b) none 1 = .ok [.LFA_Client]) ∧
    (setup_path "lfa" "pvi" none (some q) 1 = .ok [.LFA_Client]) ∧
    (setup_path "local_pvi" "pvi" (some b) none 1 = .ok [.Local_PVI_Client]) ∧
    (setup_path "local_pvi" "pvi" none (some q) 1 = .ok [.Local_PVI_Client]) ∧
    (setup_path "param_fixed" "pvi" (some b) none 1 =
      .error (.unknownDpModeClients "param_fixed")) ∧
    (setup_path "param_fixed" "pvi" none (some q) 1 =
      .error (.unknownDpModeClients "param_fixed")) :=
  ⟨rfl, rfl, rfl, rfl, rfl, rfl, rfl, rfl, rfl, rfl, rfl, rfl, rfl, rfl, rfl,
   rfl, rfl, rfl, rfl, rfl⟩

/-- Witness for the amended C1 at concrete option values. -/
theorem setup_path_batch_q_cases_witness :
    setup_path "dpsgd" "pvi" (some 10) (some (1 / 5)) 1 =
      .error .userLevelNotImplemented :=
  (setup_path_batch_q_cases 10 (1 / 5)).1

/-- The seven `dp_mode` values the spec lists as recognized. -/
def dp_mode_whitelist : List String :=
  ["nondp_epochs", "nondp_batches", "dpsgd", "param", "param_fixed", "lfa", "local_pvi"]

/-- C6: the argument checks of `main` accept a `dp_mode` exactly when it
belongs to the seven-element whitelist: every `dp_mode` outside it makes
`main` raise, whatever the model and batch options (the eighth whitelisted
string `"server"` of line 60 still ends in the `ValueError` of line 93),
while every whitelisted mode passes the checks under a suitable batch
configuration. -/
theorem main_accepts_dp_mode_iff (dp_mode : String) :
    (dp_mode ∉ dp_mode_whitelist →
      ∀ model batch_size sampling_frac_q,
        isErr (main_arg_checks dp_mode model batch_size sampling_frac_q) = true) ∧
    (dp_mode ∈ dp_mode_whitelist →
      main_arg_checks dp_mode "pvi" (some 10) none = .ok ()) := by
  constructor
  · intro h7 model batch_size sampling_frac_q
    by_cases h8 : dp_mode ∈ ["nondp_batches", "nondp_epochs", "dpsgd", "param",
        "param_fixed", "server", "lfa", "local_pvi"]
    · simp only [dp_mode_whitelist, List.mem_cons, List.not_mem_nil, or_false,
        not_or] at h7
      simp only [List.mem_cons, List.not_mem_nil, or_false] at h8
      obtain ⟨n1, n2, n3, n4, n5, n6, n7⟩ := h7
      rcases h8 with rfl | rfl | rfl | rfl | rfl | rfl | rfl | rfl
      · exact absurd rfl n2
      · exact absurd rfl n1
      · exact absurd rfl n3
      · exact absurd rfl n4
      · exact absurd rfl n5
      · rw [main_arg_checks, if_neg (by decide)]
        by_cases hm : model ∈ ["pvi", "bcm_split", "bcm_same", "global_vi"]
        · rw [if_neg (not_not_intro hm), if_neg (by decide), if_neg (by decide),
            if_neg (by decide), if_neg (by decide)]
          rfl
        · rw [if_pos hm]
          rfl
      · exact absurd rfl n6
      · exact absurd rfl n7
    · rw [main_arg_checks, if_pos h8]
      rfl
  · intro h
    simp only [dp_mode_whitelist] at h
    fin_cases h <;> rfl

/-- Witness for C6: a mode outside the whitelist is rejected, a whitelisted
one is accepted. -/
theorem main_accepts_dp_mode_iff_witness :
    isErr (main_arg_checks "mystery" "pvi" none none) = true ∧
      main_arg_checks "dpsgd" "pvi" (some 10) none = .ok () :=
  ⟨(main_accepts_dp_mode_iff "mystery").1 (by decide) "pvi" none none,
   (main_accepts_dp_mode_iff "dpsgd").2 (by decide)⟩

/-! ## Client-shard generation (`utils.generate_clients_data`, utils.py 454-551)

A data set is a list of rows `(features, label)`; the source keeps `x` and
`y` as parallel arrays but every index operation is applied to both in
lockstep, so the fused representation is faithful.  The numpy global random
state is an abstract state `σ` together with the two operations the source
uses: `np.random.seed` and `np.random.permutation`. -/

/-- The interface of the numpy global generator that
`generate_clients_data` uses: `seed n` is the state after `np.random.seed(n)`
and `permutation s n` returns the index list of `np.random.permutation(n)`
together with the advanced state. -/
structure NpRandom (σ : Type u) : Type u where
  seed : ℕ → σ
  permutation : σ → ℕ → List ℕ × σ

/-- A generator is lawful when `permutation s n` really is a permutation of
`0, …, n-1`, as `np.random.permutation` guarantees. -/
def LawfulRng {σ : Type u} (rng : NpRandom σ) : Prop :=
  ∀ s n, ((rng.permutation s n).1).Perm (List.range n)

/-- Python slice `l[:k]` (numpy row slicing): negative stops count from the
end, clamped at zero. -/
def pySlice_to {α : Type u} (k : ℤ) (l : List α) : List α :=
  if 0 ≤ k then l.take k.toNat else l.take (l.length - k.natAbs)

/-- Python slice `l[k:]`: negative starts count from the end, clamped at
zero. -/
def pySlice_from {α : Type u} (k : ℤ) (l : List α) : List α :=
  if 0 ≤ k then l.drop k.toNat else l.drop (l.length - k.natAbs)

/-- Numpy fancy indexing `l[inds]` for an index list produced by
`np.random.permutation`. -/
def applyPerm {α : Type u} (inds : List ℕ) (l : List α) : List α :=
  inds.filterMap fun i => l[i]?

variable {α : Type u} {σ : Type v}

/-- The positive-class test `y > 0` the source uses (`np.where(y > 0)`,
`np.mean(y > 0)`). -/
def isPos (r : α × ℚ) : Bool := 0 < r.2

/-- The negative-class test `y == 0` the source uses. -/
def isNegLbl (r : α × ℚ) : Bool := r.2 = 0

/-- Number of positive-class rows. -/
def countPos (l : List (α × ℚ)) : ℕ := l.countP isPos

/-- Number of negative-class rows. -/
def countNeg (l : List (α × ℚ)) : ℕ := l.countP isNegLbl

/-- `small_client_size = int(np.floor((1 - client_size_factor) * N/M))`
(utils.py line 472). -/
def small_client_size (N M : ℕ) (client_size_factor : ℚ) : ℤ :=
  ⌊(1 - client_size_factor) * N / M⌋

/-- `big_client_size = int(np.floor((1 + client_size_factor) * N/M))`
(utils.py line 473). -/
def big_client_size (N M : ℕ) (client_size_factor : ℚ) : ℤ :=
  ⌊(1 + client_size_factor) * N / M⌋

/-- `class_balance = np.mean(y == 0)` (utils.py line 475). -/
def class_balance (data : List (α × ℚ)) : ℚ :=
  (countNeg data : ℚ) / data.length

/-- `small_client_class_balance` (utils.py line 477). -/
def small_client_class_balance (data : List (α × ℚ))
    (class_balance_factor : ℚ) : ℚ :=
  class_balance data + (1 - class_balance data) * class_balance_factor

/-- `small_client_negative_class_size` (utils.py line 478). -/
def small_neg_size (data : List (α × ℚ)) (M : ℕ)
    (client_size_factor class_balance_factor : ℚ) : ℤ :=
  ⌊(small_client_size data.length M client_size_factor : ℚ) *
    small_client_class_balance data class_balance_factor⌋

/-- `small_client_positive_class_size` (utils.py line 479). -/
def small_pos_size (data : List (α × ℚ)) (M : ℕ)
    (client_size_factor class_balance_factor : ℚ) : ℤ :=
  small_client_size data.length M client_size_factor -
    small_neg_size data M client_size_factor class_balance_factor

/-- The exceptions `generate_clients_data` can raise, in source order. -/
inductive GcdError : Type
  /-- Line 469: `Num clients should be even for nice maths`. -/
  | oddClients
  /-- Line 481: negative `small_client_negative_class_size`. -/
  | negSmallNeg
  /-- Line 482: negative `small_client_positive_class_size`. -/
  | negSmallPos
  /-- Line 486: not enough negative class instances for the small clients. -/
  | notEnoughNeg
  /-- Line 489: not enough positive class instances for the small clients. -/
  | notEnoughPos
  /-- Line 495: the `assert` that the positive and zero index sets cover `y`. -/
  | assertFailed
deriving DecidableEq, Repr

/-- The quadruple `generate_clients_data` returns: the client shards, their
sizes `N_is`, their positive proportions, and `M`. -/
structure GcdResult (α : Type u) : Type u where
  client_data : List (List (α × ℚ))
  N_is : List ℕ
  props_positive : List ℚ
  M : ℕ
deriving DecidableEq, Repr

/-- The small-client loop (utils.py lines 506-525): each of the `M/2` small
clients takes `small_client_positive_class_size` rows off the front of the
positive pool and `small_client_negative_class_size` off the negative pool,
concatenates and shuffles them.  Returns the shards, the two leftover pools
and the advanced random state. -/
def popSmall (rng : NpRandom σ) :
    ℕ → List (α × ℚ) → List (α × ℚ) → ℤ → ℤ → σ →
      List (List (α × ℚ)) × List (α × ℚ) × List (α × ℚ) × σ
  | 0, posL, negL, _, _, s => ([], posL, negL, s)
  | c + 1, posL, negL, spos, sneg, s =>
    let client_x_pos := pySlice_to spos posL
    let posL2 := pySlice_from spos posL
    let client_x_neg := pySlice_to sneg negL
    let negL2 := pySlice_from sneg negL
    let client0 := client_x_pos ++ client_x_neg
    let pr := rng.permutation s client0.length
    let client := applyPerm pr.1 client0
    let rest := popSmall rng c posL2 negL2 spos sneg pr.2
    (client :: rest.1, rest.2.1, rest.2.2.1, rest.2.2.2)

/-- The big-client loop (utils.py lines 536-543): each of the `M/2` big
clients takes `big_client_size` rows off the front of the shuffled
remainder. -/
def popBig : ℕ → List (α × ℚ) → ℤ → List (List (α × ℚ)) × List (α × ℚ)
  | 0, rem, _ => ([], rem)
  | c + 1, rem, big =>
    let client := pySlice_to big rem
    let rem2 := pySlice_from big rem
    let rest := popBig c rem2 big
    (client :: rest.1, rest.2)

/-- The success path of `generate_clients_data` once every check has passed
(utils.py lines 492-543): split off the positive and negative pools, fill
the `M/2` small clients from their fronts with a shuffle each, shuffle the
recombined remainder, fill the `M/2` big clients from its front.  Returns
the shard list and the advanced random state. -/
def gcd_shards (rng : NpRandom σ) (data : List (α × ℚ)) (M : ℕ)
    (client_size_factor class_balance_factor : ℚ) (s0 : σ) :
    List (List (α × ℚ)) × σ :=
  let ps := popSmall rng (M / 2) (data.filter isPos) (data.filter isNegLbl)
    (small_pos_size data M client_size_factor class_balance_factor)
    (small_neg_size data M client_size_factor class_balance_factor) s0
  let pr := rng.permutation ps.2.2.2 (ps.2.1 ++ ps.2.2.1).length
  let rem := applyPerm pr.1 (ps.2.1 ++ ps.2.2.1)
  let bigs := (popBig (M / 2) rem (big_client_size data.length M client_size_factor)).1
  (ps.1 ++ bigs, pr.2)

/-- Lines 458-460: when a `dataset_seed` is given, `np.random.seed` replaces
the global state (the incoming state has been saved in `random_state`). -/
def seed_or (rng : NpRandom σ) (dataset_seed : Option ℕ) (g : σ) : σ :=
  match dataset_seed with
  | some sd => rng.seed sd
  | none => g

/-- Lines 548-549: when a `dataset_seed` is given, the saved incoming state
`g` is restored; otherwise the advanced state `s` remains. -/
def restore_or (dataset_seed : Option ℕ) (g s : σ) : σ :=
  match dataset_seed with
  | some _ => g
  | none => s

/-- Embedding of `utils.generate_clients_data` (utils.py lines 454-551).
Returns the result (or raised exception) together with the numpy global
state as the caller sees it afterwards: the incoming state is saved and
reseeded when `dataset_seed` is given, and restored on the shuffling success
path (but on no other path). -/
def generate_clients_data (rng : NpRandom σ) (data : List (α × ℚ)) (M : ℕ)
    (client_size_factor class_balance_factor : ℚ) (dataset_seed : Option ℕ)
    (g : σ) : Except GcdError (GcdResult α) × σ :=
  let s0 := seed_or rng dataset_seed g
  if M = 1 then
    (.ok ⟨[data], [data.length], [(countPos data : ℚ) / data.length], M⟩, s0)
  else if M % 2 ≠ 0 then (.error .oddClients, s0)
  else if small_neg_size data M client_size_factor class_balance_factor < 0 then
    (.error .negSmallNeg, s0)
  else if small_pos_size data M client_size_factor class_balance_factor < 0 then
    (.error .negSmallPos, s0)
  else if (small_neg_size data M client_size_factor class_balance_factor : ℚ) * M / 2 >
      class_balance data * data.length then
    (.error .notEnoughNeg, s0)
  else if (small_pos_size data M client_size_factor class_balance_factor : ℚ) * M / 2 >
      (1 - class_balance data) * data.length then
    (.error .notEnoughPos, s0)
  else if (data.filter isPos).length + (data.filter isNegLbl).length ≠ data.length then
    (.error .assertFailed, s0)
  else
    let cd := gcd_shards rng data M client_size_factor class_balance_factor s0
    let sF := restore_or dataset_seed g cd.2
    (.ok ⟨cd.1, cd.1.map List.length,
      cd.1.map (fun c => (countPos c : ℚ) / c.length), M⟩, sF)

/-! ### Supporting lemmas about permutation indexing and the two loops -/

/-- Indexing a list by `0, …, length-1` in order returns the list. -/
theorem filterMap_getElem_range (l : List α) :
    (List.range l.length).filterMap (fun i => l[i]?) = l := by
  induction l with
  | nil => rfl
  | cons a t ih =>
    rw [List.length_cons, List.range_succ_eq_map, List.filterMap_cons,
      List.filterMap_map]
    simp only [List.getElem?_cons_zero, Function.comp_def, Nat.succ_eq_add_one,
      List.getElem?_cons_succ]
    rw [ih]

/-- Fancy indexing by a permutation of `range l.length` permutes `l`. -/
theorem applyPerm_perm (inds : List ℕ) (l : List α)
    (h : inds.Perm (List.range l.length)) : (applyPerm inds l).Perm l := by
  have h2 := h.filterMap fun i => l[i]?
  rw [filterMap_getElem_range] at h2
  exact h2

/-- Slicing `l[:k]` for a nonnegative stop is `take`. -/
theorem pySlice_to_nonneg (k : ℤ) (hk : 0 ≤ k) (l : List α) :
    pySlice_to k l = l.take k.toNat := by
  rw [pySlice_to, if_pos hk]

/-- Slicing `l[k:]` for a nonnegative start is `drop`. -/
theorem pySlice_from_nonneg (k : ℤ) (hk : 0 ≤ k) (l : List α) :
    pySlice_from k l = l.drop k.toNat := by
  rw [pySlice_from, if_pos hk]

/-- Everything the small-client loop guarantees when the pools are large
enough: it yields exactly `c` shards, each a shuffle of
`small_client_positive_class_size` positive rows and
`small_client_negative_class_size` negative rows, and leaves the two pools
with the corresponding prefixes removed. -/
theorem popSmall_spec (rng : NpRandom σ) (hrng : LawfulRng rng) (spos sneg : ℤ)
    (hsp : 0 ≤ spos) (hsn : 0 ≤ sneg) (c : ℕ) :
    ∀ (posL negL : List (α × ℚ)) (s : σ),
      c * spos.toNat ≤ posL.length → c * sneg.toNat ≤ negL.length →
      (∀ r ∈ posL, isPos r = true) → (∀ r ∈ negL, isPos r = false) →
      (popSmall rng c posL negL spos sneg s).1.length = c ∧
        (∀ cl ∈ (popSmall rng c posL negL spos sneg s).1,
          cl.length = spos.toNat + sneg.toNat ∧ cl.countP isPos = spos.toNat) ∧
        (popSmall rng c posL negL spos sneg s).2.1 = posL.drop (c * spos.toNat) ∧
        (popSmall rng c posL negL spos sneg s).2.2.1 = negL.drop (c * sneg.toNat) := by
  induction c with
  | zero =>
    intro posL negL s _ _ _ _
    exact ⟨rfl, fun cl h => absurd h (List.not_mem_nil cl),
      by simp [popSmall], by simp [popSmall]⟩
  | succ c ih =>
    intro posL negL s hpos hneg hP hN
    have hsp1 : spos.toNat ≤ posL.length :=
      le_trans (Nat.le_mul_of_pos_left _ (Nat.succ_pos c)) hpos
    have hsn1 : sneg.toNat ≤ negL.length :=
      le_trans (Nat.le_mul_of_pos_left _ (Nat.succ_pos c)) hneg
    rw [popSmall]
    simp only [pySlice_to_nonneg _ hsp, pySlice_to_nonneg _ hsn,
      pySlice_from_nonneg _ hsp, pySlice_from_nonneg _ hsn]
    set client0 := posL.take spos.toNat ++ negL.take sneg.toNat with hc0
    have hlen0 : client0.length = spos.toNat + sneg.toNat := by
      rw [hc0, List.length_append, List.length_take, List.length_take,
        min_eq_left hsp1, min_eq_left hsn1]
    have hperm : (applyPerm (rng.permutation s client0.length).1 client0).Perm client0 :=
      applyPerm_perm _ _ (hrng s client0.length)
    have hcl_len : (applyPerm (rng.permutation s client0.length).1 client0).length =
        spos.toNat + sneg.toNat := by
      rw [hperm.length_eq, hlen0]
    have hcl_cnt : (applyPerm (rng.permutation s client0.length).1 client0).countP isPos =
        spos.toNat := by
      rw [hperm.countP_eq, hc0, List.countP_append]
      have h1 : (posL.take spos.toNat).countP isPos = spos.toNat := by
        rw [List.countP_eq_length.mpr fun r hr => hP r (List.mem_of_mem_take hr),
          List.length_take, min_eq_left hsp1]
      have h2 : (negL.take sneg.toNat).countP isPos = 0 := by
        rw [List.countP_eq_zero.mpr]
        intro r hr
        rw [hN r (List.mem_of_mem_take hr)]
        exact Bool.false_ne_true
      rw [h1, h2, Nat.add_zero]
    have hmulp : (c + 1) * spos.toNat = c * spos.toNat + spos.toNat := Nat.succ_mul ..
    have hmuln : (c + 1) * sneg.toNat = c * sneg.toNat + sneg.toNat := Nat.succ_mul ..
    have hrec := ih (posL.drop spos.toNat) (negL.drop sneg.toNat)
      (rng.permutation s client0.length).2
      (by rw [List.length_drop]; omega) (by rw [List.length_drop]; omega)
      (fun r hr => hP r (List.mem_of_mem_drop hr))
      (fun r hr => hN r (List.mem_of_mem_drop hr))
    refine ⟨?_, ?_, ?_, ?_⟩
    · simp only [List.length_cons, hrec.1]
    · intro cl hcl
      rcases List.mem_cons.mp hcl with rfl | h
      · exact ⟨hcl_len, hcl_cnt⟩
      · exact hrec.2.1 cl h
    · rw [hrec.2.2.1, List.drop_drop]
      congr 1
      ring
    · rw [hrec.2.2.2, List.drop_drop]
      congr 1
      ring

/-- The big-client loop yields exactly `c` shards of `big_client_size` rows
each when the remainder is large enough. -/
theorem popBig_spec (big : ℤ) (hb : 0 ≤ big) (c : ℕ) :
    ∀ rem : List (α × ℚ), c * big.toNat ≤ rem.length →
      (popBig c rem big).1.length = c ∧
        ∀ cl ∈ (popBig c rem big).1, cl.length = big.toNat := by
  induction c with
  | zero =>
    intro rem _
    exact ⟨rfl, fun cl h => absurd h (List.not_mem_nil cl)⟩
  | succ c ih =>
    intro rem hrem
    have hb1 : big.toNat ≤ rem.length :=
      le_trans (Nat.le_mul_of_pos_left _ (Nat.succ_pos c)) hrem
    rw [popBig]
    simp only [pySlice_to_nonneg _ hb, pySlice_from_nonneg _ hb]
    have hmul : (c + 1) * big.toNat = c * big.toNat + big.toNat := Nat.succ_mul ..
    have hrec := ih (rem.drop big.toNat) (by rw [List.length_drop]; omega)
    refine ⟨by simp only [List.length_cons, hrec.1], ?_⟩
    intro cl hcl
    rcases List.mem_cons.mp hcl with rfl | h
    · rw [List.length_take, min_eq_left hb1]
    · exact hrec.2 cl h

/-- The integer floor of a quotient of naturals is natural division. -/
theorem floor_natCast_div (N M : ℕ) : ⌊(N : ℚ) / (M : ℚ)⌋ = ((N / M : ℕ) : ℤ) := by
  have h0 : (0 : ℚ) ≤ (N : ℚ) / (M : ℚ) := by positivity
  rw [← Int.toNat_of_nonneg (Int.floor_nonneg.mpr h0), Int.floor_toNat,
    Nat.floor_div_nat, Nat.floor_natCast]

/-- `class_balance * N` is exactly the negative-class count. -/
theorem class_balance_mul_length (data : List (α × ℚ)) :
    class_balance data * data.length = (countNeg data : ℚ) := by
  rw [class_balance]
  rcases Nat.eq_zero_or_pos data.length with h | h
  · have hc : countNeg data = 0 :=
      Nat.le_zero.mp (h ▸ List.countP_le_length isNegLbl)
    rw [hc, h]
    norm_num
  · exact div_mul_cancel₀ _ (Nat.cast_ne_zero.mpr h.ne')

/-- `(1 - class_balance) * N` is exactly the positive-class count, given
the covering assertion of utils.py line 495. -/
theorem one_sub_class_balance_mul_length (data : List (α × ℚ))
    (h : countPos data + countNeg data = data.length) :
    (1 - class_balance data) * data.length = (countPos data : ℚ) := by
  have hc := class_balance_mul_length data
  have hcast : (countPos data : ℚ) + (countNeg data : ℚ) = (data.length : ℚ) := by
    exact_mod_cast congrArg (Nat.cast (R := ℚ)) h
  linarith [sub_mul 1 (class_balance data) (data.length : ℚ), one_mul ((data.length : ℚ))]

/-- With both factors zero, a small client's positive count
`small_client_positive_class_size` is within one example of the global
positive proportion applied to its size `⌊N/M⌋`. -/
theorem small_pos_within_one (data : List (α × ℚ)) (M : ℕ)
    (h7 : countPos data + countNeg data = data.length)
    (hsp : 0 ≤ small_pos_size data M 0 0) :
    |((small_pos_size data M 0 0).toNat : ℚ) -
      (countPos data : ℚ) / data.length * ((data.length / M : ℕ) : ℚ)| ≤ 1 := by
  have hsmall : small_client_size data.length M 0 = ((data.length / M : ℕ) : ℤ) := by
    rw [small_client_size, sub_zero, one_mul, floor_natCast_div]
  have hscb : small_client_class_balance data 0 = class_balance data := by
    rw [small_client_class_balance]
    ring
  have hneg : small_neg_size data M 0 0 =
      ⌊((data.length / M : ℕ) : ℚ) * class_balance data⌋ := by
    rw [small_neg_size, hscb, hsmall]
    norm_cast
  have hposq : (small_pos_size data M 0 0 : ℚ) =
      ((data.length / M : ℕ) : ℚ) -
        (⌊((data.length / M : ℕ) : ℚ) * class_balance data⌋ : ℚ) := by
    rw [small_pos_size, hneg, hsmall, Int.cast_sub, Int.cast_natCast]
  have htn : ((small_pos_size data M 0 0).toNat : ℚ) = (small_pos_size data M 0 0 : ℚ) := by
    rw [← Int.toNat_of_nonneg hsp]
    push_cast
    rw [Int.toNat_of_nonneg hsp]
  rcases Nat.eq_zero_or_pos data.length with h0 | h0
  · have hk : data.length / M = 0 := by rw [h0]; exact Nat.zero_div M
    have : small_pos_size data M 0 0 = 0 := by
      have := hposq
      rw [hk] at this
      push_cast at this
      have hz : (small_pos_size data M 0 0 : ℚ) = 0 := by
        rw [this]
        norm_num
      exact_mod_cast hz
    rw [this, hk]
    norm_num
  · have hprop : (countPos data : ℚ) / data.length = 1 - class_balance data := by
      have hc := one_sub_class_balance_mul_length data h7
      have hNne : (data.length : ℚ) ≠ 0 := Nat.cast_ne_zero.mpr h0.ne'
      field_simp at hc ⊢
      linarith
    rw [htn, hposq, hprop]
    have hfl := Int.floor_le (((data.length / M : ℕ) : ℚ) * class_balance data)
    have hfu := Int.lt_floor_add_one (((data.length / M : ℕ) : ℚ) * class_balance data)
    rw [abs_le]
    constructor <;> nlinarith [hfl, hfu]

/-- Balance of the shard-construction path for `client_size_factor = 0`:
under the checks the source performs before reaching it, all `M` shards have
exactly `⌊N/M⌋` rows, and when `class_balance_factor = 0` as well, each of
the `M/2` small shards (the first half of the list) carries a positive count
within one example of the global positive proportion. -/
theorem gcd_shards_balanced (rng : NpRandom σ) (hrng : LawfulRng rng)
    (data : List (α × ℚ)) (M : ℕ) (cbf : ℚ) (s0 : σ) (hM : M % 2 = 0)
    (hsn : 0 ≤ small_neg_size data M 0 cbf)
    (hsp : 0 ≤ small_pos_size data M 0 cbf)
    (h5 : (small_neg_size data M 0 cbf : ℚ) * M / 2 ≤ class_balance data * data.length)
    (h6 : (small_pos_size data M 0 cbf : ℚ) * M / 2 ≤
      (1 - class_balance data) * data.length)
    (h7 : countPos data + countNeg data = data.length) :
    (gcd_shards rng data M 0 cbf s0).1.length = M ∧
      (∀ cl ∈ (gcd_shards rng data M 0 cbf s0).1, cl.length = data.length / M) ∧
      (cbf = 0 → ∀ cl ∈ (gcd_shards rng data M 0 cbf s0).1.take (M / 2),
        |(countPos cl : ℚ) - (countPos data : ℚ) / data.length * cl.length| ≤ 1) := by
  have hsmall : small_client_size data.length M 0 = ((data.length / M : ℕ) : ℤ) := by
    rw [small_client_size, sub_zero, one_mul, floor_natCast_div]
  have hbig : big_client_size data.length M 0 = ((data.length / M : ℕ) : ℤ) := by
    rw [big_client_size, add_zero, one_mul, floor_natCast_div]
  have hsum : small_pos_size data M 0 cbf + small_neg_size data M 0 cbf =
      ((data.length / M : ℕ) : ℤ) := by
    rw [small_pos_size, hsmall]
    ring
  have hab : (small_pos_size data M 0 cbf).toNat + (small_neg_size data M 0 cbf).toNat =
      data.length / M := by omega
  have hM2 : (M : ℚ) = 2 * ((M / 2 : ℕ) : ℚ) := by
    have h := hM
    have : M = 2 * (M / 2) := by omega
    exact_mod_cast congrArg (Nat.cast (R := ℚ)) this
  have hnegN : (M / 2) * (small_neg_size data M 0 cbf).toNat ≤ countNeg data := by
    rw [class_balance_mul_length] at h5
    have hq : (small_neg_size data M 0 cbf : ℚ) * ((M / 2 : ℕ) : ℚ) ≤
        (countNeg data : ℚ) := by
      calc (small_neg_size data M 0 cbf : ℚ) * ((M / 2 : ℕ) : ℚ)
          = (small_neg_size data M 0 cbf : ℚ) * M / 2 := by rw [hM2]; ring
        _ ≤ _ := h5
    rw [← Int.toNat_of_nonneg hsn] at hq
    push_cast at hq
    have hq2 : (small_neg_size data M 0 cbf).toNat * (M / 2) ≤ countNeg data := by
      exact_mod_cast hq
    rwa [Nat.mul_comm] at hq2
  have hposN : (M / 2) * (small_pos_size data M 0 cbf).toNat ≤ countPos data := by
    rw [one_sub_class_balance_mul_length data h7] at h6
    have hq : (small_pos_size data M 0 cbf : ℚ) * ((M / 2 : ℕ) : ℚ) ≤
        (countPos data : ℚ) := by
      calc (small_pos_size data M 0 cbf : ℚ) * ((M / 2 : ℕ) : ℚ)
          = (small_pos_size data M 0 cbf : ℚ) * M / 2 := by rw [hM2]; ring
        _ ≤ _ := h6
    rw [← Int.toNat_of_nonneg hsp] at hq
    push_cast at hq
    have hq2 : (small_pos_size data M 0 cbf).toNat * (M / 2) ≤ countPos data := by
      exact_mod_cast hq
    rwa [Nat.mul_comm] at hq2
  have hposlen : (data.filter isPos).length = countPos data :=
    (List.countP_eq_length_filter _ _).symm
  have hneglen : (data.filter isNegLbl).length = countNeg data :=
    (List.countP_eq_length_filter _ _).symm
  have hmemP : ∀ r ∈ data.filter isPos, isPos r = true := fun r hr =>
    List.of_mem_filter hr
  have hmemN : ∀ r ∈ data.filter isNegLbl, isPos r = false := by
    intro r hr
    have h := List.of_mem_filter hr
    have hz : r.2 = 0 := by simpa [isNegLbl] using h
    simp [isPos, hz]
  have hps := popSmall_spec rng hrng (small_pos_size data M 0 cbf)
    (small_neg_size data M 0 cbf) hsp hsn (M / 2) (data.filter isPos)
    (data.filter isNegLbl) s0 (by rw [hposlen]; exact hposN)
    (by rw [hneglen]; exact hnegN) hmemP hmemN
  rw [gcd_shards]
  set PS := popSmall rng (M / 2) (data.filter isPos) (data.filter isNegLbl)
    (small_pos_size data M 0 cbf) (small_neg_size data M 0 cbf) s0 with hPS
  obtain ⟨hps_len, hps_cl, hps_pos, hps_neg⟩ := hps
  have hlenP : PS.2.1.length = countPos data - (M / 2) * (small_pos_size data M 0 cbf).toNat := by
    rw [hps_pos, List.length_drop, hposlen]
  have hlenN : PS.2.2.1.length =
      countNeg data - (M / 2) * (small_neg_size data M 0 cbf).toNat := by
    rw [hps_neg, List.length_drop, hneglen]
  have hremperm : (applyPerm (rng.permutation PS.2.2.2 (PS.2.1 ++ PS.2.2.1).length).1
      (PS.2.1 ++ PS.2.2.1)).Perm (PS.2.1 ++ PS.2.2.1) :=
    applyPerm_perm _ _ (hrng _ _)
  have hremlen : (applyPerm (rng.permutation PS.2.2.2 (PS.2.1 ++ PS.2.2.1).length).1
      (PS.2.1 ++ PS.2.2.1)).length =
      (countPos data - (M / 2) * (small_pos_size data M 0 cbf).toNat) +
        (countNeg data - (M / 2) * (small_neg_size data M 0 cbf).toNat) := by
    rw [hremperm.length_eq, List.length_append, hlenP, hlenN]
  have hABK : (M / 2) * (small_pos_size data M 0 cbf).toNat +
      (M / 2) * (small_neg_size data M 0 cbf).toNat = (M / 2) * (data.length / M) := by
    rw [← Nat.mul_add, hab]
  have h2K : (M / 2) * (data.length / M) + (M / 2) * (data.length / M) ≤ data.length := by
    have h1 : data.length / M * M ≤ data.length := Nat.div_mul_le_self _ _
    have h2 : data.length / M * M =
        (M / 2) * (data.length / M) + (M / 2) * (data.length / M) := by
      have h3 : M = M / 2 + M / 2 := by omega
      calc data.length / M * M = M * (data.length / M) := Nat.mul_comm _ _
        _ = (M / 2 + M / 2) * (data.length / M) := by rw [← h3]
        _ = (M / 2) * (data.length / M) + (M / 2) * (data.length / M) :=
          Nat.add_mul _ _ _
    omega
  have hbigtn : (big_client_size data.length M 0).toNat = data.length / M := by
    rw [hbig, Int.toNat_natCast]
  have hpb := popBig_spec (big_client_size data.length M 0) (by rw [hbig]; positivity)
    (M / 2) (applyPerm (rng.permutation PS.2.2.2 (PS.2.1 ++ PS.2.2.1).length).1
      (PS.2.1 ++ PS.2.2.1)) (by rw [hbigtn, hremlen]; omega)
  refine ⟨?_, ?_, ?_⟩
  · rw [List.length_append, hps_len, hpb.1]
    omega
  · intro cl hcl
    rcases List.mem_append.mp hcl with h | h
    · rw [(hps_cl cl h).1, hab]
    · rw [hpb.2 cl h, hbigtn]
  · intro hcbf cl hcl
    subst hcbf
    rw [← hps_len, List.take_left] at hcl
    have hc := hps_cl cl hcl
    have hcount : countPos cl = (small_pos_size data M 0 0).toNat := hc.2
    have hlen : cl.length = data.length / M := by rw [hc.1, hab]
    rw [hcount, hlen]
    exact small_pos_within_one data M h7 hsp

/-- A lawful generator whose permutations are the identity — one reachable
behaviour of `np.random.permutation`. -/
def idRng : NpRandom Unit := ⟨fun _ => (), fun s n => (List.range n, s)⟩

/-- The identity generator is lawful. -/
theorem idRng_lawful : LawfulRng idRng := fun _ _ => List.Perm.refl _

/-- A lawful generator over `ℕ` states, counting how often it was used. -/
def natRng : NpRandom ℕ := ⟨fun sd => sd, fun s n => (List.range n, s + 1)⟩

/-- The counting generator is lawful. -/
theorem natRng_lawful : LawfulRng natRng := fun _ _ => List.Perm.refl _

/-- C4 (amended): for even `M ≥ 2` and `client_size_factor = 0`, on any
successful run all `M` shard sizes are exactly `⌊N/M⌋` (hence equal within
±1); and when `class_balance_factor = 0`, the positive proportion is within
one example of the global one for each of the `M/2` *small* clients (the
first half of the returned list).  The big clients' proportions depend on
the remainder shuffle and carry no such bound (see the counterexample). -/
theorem generate_clients_data_balance (rng : NpRandom σ) (hrng : LawfulRng rng)
    (data : List (α × ℚ)) (M : ℕ) (class_balance_factor : ℚ)
    (dataset_seed : Option ℕ) (g : σ) (res : GcdResult α)
    (hM : M % 2 = 0)
    (hok : (generate_clients_data rng data M 0 class_balance_factor
      dataset_seed g).1 = .ok res) :
    res.N_is.length = M ∧
      (∀ n ∈ res.N_is, n = data.length / M) ∧
      (class_balance_factor = 0 →
        ∀ cl ∈ res.client_data.take (M / 2),
          |(countPos cl : ℚ) - (countPos data : ℚ) / data.length * cl.length| ≤ 1) := by
  simp only [generate_clients_data] at hok
  split_ifs at hok with hc1 hc2 hc3 hc4 hc5 hc6 hc7
  all_goals try omega
  case _ =>
    have h7 : countPos data + countNeg data = data.length := by
      have h := not_ne_iff.mp hc7
      rwa [← List.countP_eq_length_filter isPos, ← List.countP_eq_length_filter isNegLbl]
        at h
    obtain ⟨hl, hs, hp⟩ := gcd_shards_balanced rng hrng data M class_balance_factor
      (seed_or rng dataset_seed g) hM
      (not_lt.mp hc3) (not_lt.mp hc4) (not_lt.mp hc5) (not_lt.mp hc6) h7
    injection hok with hres
    subst hres
    refine ⟨?_, ?_, ?_⟩
    · show ((gcd_shards rng data M 0 class_balance_factor _).1.map List.length).length = M
      rw [List.length_map]
      exact hl
    · intro n hn
      obtain ⟨cl, hcl, rfl⟩ := List.mem_map.mp hn
      exact hs cl hcl
    · exact hp

/-- Eight rows, six positive and two negative, exhibiting the big-client
imbalance. -/
def c4Data : List (Unit × ℚ) :=
  [((), 1), ((), 1), ((), 1), ((), 1), ((), 1), ((), 1), ((), 0), ((), 0)]

set_option maxHeartbeats 1000000 in
/-- C4 (counterexample): with `M = 4`, both factors zero and the reachable
identity shuffle, the run succeeds with positive counts `[2, 2, 2, 0]` over
shard sizes `[2, 2, 2, 2]`; the last (big) client holds `0` positives while
the global proportion `6/8` of its `2` rows is `1.5`, i.e. it is off by more
than one example — refuting the claim that *every* client's proportion
matches the global one within ±1 example. -/
theorem generate_clients_data_balance_counterexample :
    (((generate_clients_data idRng c4Data 4 0 0 none ()).1.map
      fun r => (r.client_data.map countPos, r.N_is)) =
        .ok ([2, 2, 2, 0], [2, 2, 2, 2])) ∧
      ¬ |((0 : ℚ)) - (countPos c4Data : ℚ) / c4Data.length * 2| ≤ 1 := by
  constructor
  · have h1 : small_neg_size c4Data 4 0 0 = 0 := by
      norm_num [small_neg_size, small_client_size, small_client_class_balance,
        class_balance, show countNeg c4Data = 2 from rfl,
        show c4Data.length = 8 from rfl]
    have h2 : small_pos_size c4Data 4 0 0 = 2 := by
      norm_num [small_pos_size, small_client_size, h1, show c4Data.length = 8 from rfl]
    have h3 : big_client_size c4Data.length 4 0 = 2 := by
      norm_num [big_client_size, show c4Data.length = 8 from rfl]
    simp only [generate_clients_data, seed_or, restore_or, gcd_shards, h1, h2, h3]
    norm_num [popSmall, popBig, applyPerm, pySlice_to, pySlice_from, idRng, c4Data,
      class_balance, countPos, countNeg, isPos, isNegLbl, List.range_succ,
      List.filterMap_cons, List.countP_cons, Except.map,
      show ((2 : ℤ)).toNat = 2 from rfl]
  · rw [show (countPos c4Data : ℚ) = 6 from by norm_num [countPos, c4Data, isPos,
      List.countP_cons], show (c4Data.length : ℚ) = 8 from by norm_num [c4Data]]
    rw [show |((0 : ℚ)) - 6 / 8 * 2| = 3 / 2 from by
      rw [show ((0 : ℚ)) - 6 / 8 * 2 = -(3 / 2) from by norm_num, abs_neg,
        abs_of_nonneg (by norm_num : (0 : ℚ) ≤ 3 / 2)]]
    norm_num

/-- Two rows, one positive and one negative. -/
def c4wData : List (Unit × ℚ) := [((), 1), ((), 0)]

/-- The successful result of partitioning `c4wData` into two clients. -/
def c4wRes : GcdResult Unit := ⟨[[((), 1)], [((), 0)]], [1, 1], [1, 0], 2⟩

/-- Witness for the amended C4 at a concrete balanced run. -/
theorem generate_clients_data_balance_witness :
    c4wRes.N_is.length = 2 ∧
      (∀ n ∈ c4wRes.N_is, n = c4wData.length / 2) ∧
      ((0 : ℚ) = 0 → ∀ cl ∈ c4wRes.client_data.take (2 / 2),
        |(countPos cl : ℚ) - (countPos c4wData : ℚ) / c4wData.length * cl.length| ≤ 1) :=
  generate_clients_data_balance idRng idRng_lawful c4wData 2 0 none () c4wRes rfl
    (by norm_num [generate_clients_data, seed_or, restore_or, gcd_shards, popSmall,
      popBig, small_neg_size, small_pos_size, small_client_size, big_client_size,
      small_client_class_balance, class_balance, countPos, countNeg, isPos, isNegLbl,
      applyPerm, pySlice_to, pySlice_from, idRng, c4wData, c4wRes, List.range_succ,
      List.filterMap_cons, List.countP_cons])

/-- C5 (amended): the even-client-count precondition is enforced for every
odd `M` *except* `M = 1`: for odd `M ≥ 3` the function raises the
`oddClients` error before producing any shards. -/
theorem generate_clients_data_odd_error (rng : NpRandom σ) (data : List (α × ℚ))
    (M : ℕ) (client_size_factor class_balance_factor : ℚ) (dataset_seed : Option ℕ)
    (g : σ) (hodd : M % 2 = 1) (hM1 : M ≠ 1) :
    (generate_clients_data rng data M client_size_factor class_balance_factor
      dataset_seed g).1 = .error .oddClients := by
  simp only [generate_clients_data]
  rw [if_neg hM1, if_pos (by omega : M % 2 ≠ 0)]

/-- Witness for the amended C5 at `M = 3`. -/
theorem generate_clients_data_odd_error_witness :
    (generate_clients_data natRng ([] : List (Unit × ℚ)) 3 0 0 none 0).1 =
      .error .oddClients :=
  generate_clients_data_odd_error natRng [] 3 0 0 none 0 rfl (by omega)

/-- One positive row. -/
def c5Data : List (Unit × ℚ) := [((), 1)]

/-- C5 (counterexample): `M = 1` is odd, yet `generate_clients_data` raises
no error: the `M == 1` early return (utils.py line 462) runs before the
even-`M` check and hands all data to a single client. -/
theorem generate_clients_data_M1_counterexample :
    (generate_clients_data natRng c5Data 1 0 0 none 0).1 =
      .ok ⟨[c5Data], [1], [1], 1⟩ := by
  norm_num [generate_clients_data, seed_or, c5Data, countPos, isPos, List.countP_cons]

/-- C7: whenever filling the `M/2` small clients would require more
negative-class rows (or more positive-class rows) than the data set
contains, `generate_clients_data` raises an error before distributing any
data (even `M ≥ 2`; the requirement is
`small_client_negative_class_size · M/2` versus the negative count, and
symmetrically for the positive side). -/
theorem generate_clients_data_insufficient_error (rng : NpRandom σ)
    (data : List (α × ℚ)) (M : ℕ) (client_size_factor class_balance_factor : ℚ)
    (dataset_seed : Option ℕ) (g : σ) (hM : M % 2 = 0) (_h2M : 2 ≤ M)
    (hins : (countNeg data : ℚ) <
        (small_neg_size data M client_size_factor class_balance_factor : ℚ) *
          ((M / 2 : ℕ) : ℚ) ∨
      (countPos data : ℚ) <
        (small_pos_size data M client_size_factor class_balance_factor : ℚ) *
          ((M / 2 : ℕ) : ℚ)) :
    isErr (generate_clients_data rng data M client_size_factor class_balance_factor
      dataset_seed g).1 = true := by
  have hM2 : (M : ℚ) = 2 * ((M / 2 : ℕ) : ℚ) := by
    have h : M = 2 * (M / 2) := by omega
    exact_mod_cast congrArg (Nat.cast (R := ℚ)) h
  simp only [generate_clients_data]
  split_ifs with hc1 hc2 hc3 hc4 hc5 hc6 hc7
  · exfalso; omega
  · rfl
  · rfl
  · rfl
  · rfl
  · rfl
  · rfl
  · exfalso
    have h7 : countPos data + countNeg data = data.length := by
      have h := not_ne_iff.mp hc7
      rwa [← List.countP_eq_length_filter isPos, ← List.countP_eq_length_filter isNegLbl]
        at h
    rcases hins with h | h
    · have h5 := not_lt.mp hc5
      rw [class_balance_mul_length] at h5
      have heq : (small_neg_size data M client_size_factor class_balance_factor : ℚ) *
          (M : ℚ) / 2 =
          (small_neg_size data M client_size_factor class_balance_factor : ℚ) *
            ((M / 2 : ℕ) : ℚ) := by
        rw [hM2]; ring
      linarith
    · have h6 := not_lt.mp hc6
      rw [one_sub_class_balance_mul_length data h7] at h6
      have heq : (small_pos_size data M client_size_factor class_balance_factor : ℚ) *
          (M : ℚ) / 2 =
          (small_pos_size data M client_size_factor class_balance_factor : ℚ) *
            ((M / 2 : ℕ) : ℚ) := by
        rw [hM2]; ring
      linarith

/-- Four rows, three positive and one negative. -/
def c7Data : List (Unit × ℚ) := [((), 1), ((), 1), ((), 1), ((), 0)]

/-- Witness for C7: `M = 2` with `class_balance_factor = 1` demands two
negative rows for the single small client while only one exists. -/
theorem generate_clients_data_insufficient_error_witness :
    ((countNeg c7Data : ℚ) <
      (small_neg_size c7Data 2 0 1 : ℚ) * ((2 / 2 : ℕ) : ℚ)) ∧
      isErr (generate_clients_data natRng c7Data 2 0 1 none 0).1 = true := by
  have h1 : small_neg_size c7Data 2 0 1 = 2 := by
    norm_num [small_neg_size, small_client_size, small_client_class_balance,
      class_balance, show countNeg c7Data = 1 from rfl, show c7Data.length = 4 from rfl]
  have h2 : (countNeg c7Data : ℚ) <
      (small_neg_size c7Data 2 0 1 : ℚ) * ((2 / 2 : ℕ) : ℚ) := by
    rw [h1, show countNeg c7Data = 1 from rfl]
    norm_num
  exact ⟨h2, generate_clients_data_insufficient_error natRng c7Data 2 0 1 none 0 rfl
    (by norm_num) (Or.inl h2)⟩

/-- C8: with a fixed `dataset_seed`, the result of `generate_clients_data`
(shards, sizes, proportions, everything but the returned global state) is
independent of the numpy global random state at call time: the function
reseeds from `dataset_seed` before any random draw. -/
theorem generate_clients_data_seed_deterministic (rng : NpRandom σ)
    (data : List (α × ℚ)) (M : ℕ) (client_size_factor class_balance_factor : ℚ)
    (sd : ℕ) (g1 g2 : σ) :
    (generate_clients_data rng data M client_size_factor class_balance_factor
      (some sd) g1).1 =
      (generate_clients_data rng data M client_size_factor class_balance_factor
        (some sd) g2).1 := by
  simp only [generate_clients_data, seed_or]
  split_ifs <;> rfl

/-- Witness for C8 at two different incoming states. -/
theorem generate_clients_data_seed_deterministic_witness :
    (generate_clients_data natRng c4wData 2 0 0 (some 7) 100).1 =
      (generate_clients_data natRng c4wData 2 0 0 (some 7) 200).1 :=
  generate_clients_data_seed_deterministic natRng c4wData 2 0 0 7 100 200

/-- C9: with a `dataset_seed` given, every successful shuffling return path
(`M ≠ 1`) restores the caller's numpy global state: the state returned to
the caller is exactly the state `g` saved on entry. -/
theorem generate_clients_data_restores_state (rng : NpRandom σ)
    (data : List (α × ℚ)) (M : ℕ) (client_size_factor class_balance_factor : ℚ)
    (sd : ℕ) (g : σ) (res : GcdResult α) (hM1 : M ≠ 1)
    (hok : (generate_clients_data rng data M client_size_factor class_balance_factor
      (some sd) g).1 = .ok res) :
    (generate_clients_data rng data M client_size_factor class_balance_factor
      (some sd) g).2 = g := by
  simp only [generate_clients_data, seed_or, restore_or] at hok ⊢
  split_ifs at hok ⊢ with hc1
  · exact absurd hc1 hM1
  · rfl

/-- Witness for C9: a successful seeded run over state `42` returns state
`42`. -/
theorem generate_clients_data_restores_state_witness :
    ((generate_clients_data natRng c4wData 2 0 0 (some 7) 42).1 = .ok c4wRes) ∧
      (generate_clients_data natRng c4wData 2 0 0 (some 7) 42).2 = 42 := by
  have hok : (generate_clients_data natRng c4wData 2 0 0 (some 7) 42).1 = .ok c4wRes := by
    norm_num [generate_clients_data, seed_or, restore_or, gcd_shards, popSmall,
      popBig, small_neg_size, small_pos_size, small_client_size, big_client_size,
      small_client_class_balance, class_balance, countPos, countNeg, isPos, isNegLbl,
      applyPerm, pySlice_to, pySlice_from, natRng, c4wData, c4wRes, List.range_succ,
      List.filterMap_cons, List.countP_cons]
  exact ⟨hok,
    generate_clients_data_restores_state natRng c4wData 2 0 0 7 42 c4wRes (by omega) hok⟩

/-! ## Classification counts (`utils.get_posneg`, utils.py 385-424)

`y` and `pred_probs` are parallel arrays; the boolean-mask arithmetic of the
source reduces to counting rows of the zipped list.  The
`sklearn.metrics` extras the source attaches (`avg_prec_score`,
`balanced_acc`, `f1_score`) are external library calls and are not part of
the returned count arrays. -/

/-- The exception of the `else` branch of `get_posneg` (line 421). -/
inductive PosNegError : Type
  /-- `NotImplementedError`: multiclass accuracy is not implemented. -/
  | multiclassNotImplemented
deriving DecidableEq, Repr

/-- The four count arrays `get_posneg` returns, with `n_points`. -/
structure PosNeg : Type where
  TP : List ℕ
  FP : List ℕ
  TN : List ℕ
  FN : List ℕ
  n_points : ℕ
deriving DecidableEq, Repr

/-- `np.linspace(0, 1, n)`: `n` evenly spaced points from `0` to `1`
inclusive. -/
def linspace01 (n : ℕ) : List ℚ :=
  if n = 1 then [0]
  else (List.range n).map fun i : ℕ => (i : ℚ) / ((n : ℚ) - 1)

/-- `np.sum((pred_probs > thr)[y==1] == y[y==1])`: true positives at a
threshold. -/
def tpCount (rows : List (ℚ × ℚ)) (thr : ℚ) : ℕ :=
  rows.countP fun r => decide (r.1 = 1) && decide (thr < r.2)

/-- `np.sum((pred_probs > thr)[y==0] != y[y==0])`: false positives at a
threshold. -/
def fpCount (rows : List (ℚ × ℚ)) (thr : ℚ) : ℕ :=
  rows.countP fun r => decide (r.1 = 0) && decide (thr < r.2)

/-- `np.sum((pred_probs <= thr)[y==0] == 1-y[y==0])`: true negatives at a
threshold. -/
def tnCount (rows : List (ℚ × ℚ)) (thr : ℚ) : ℕ :=
  rows.countP fun r => decide (r.1 = 0) && decide (r.2 ≤ thr)

/-- `np.sum((pred_probs <= thr)[y==1] != 1-y[y==1])`: false negatives at a
threshold. -/
def fnCount (rows : List (ℚ × ℚ)) (thr : ℚ) : ℕ :=
  rows.countP fun r => decide (r.1 = 1) && decide (r.2 ≤ thr)

/-- Embedding of `utils.get_posneg` (utils.py lines 385-424): in the binary
case (`len(np.unique(y)) == 2`), either the single-threshold counts at `0.5`
(`n_points == 1`) or the counts at each of `np.linspace(0, 1, n_points)`;
otherwise the multiclass `NotImplementedError`. -/
def get_posneg (y pred_probs : List ℚ) (n_points : ℕ) : Except PosNegError PosNeg :=
  if y.dedup.length = 2 then
    let rows := y.zip pred_probs
    if n_points = 1 then
      .ok ⟨[tpCount rows (1 / 2)], [fpCount rows (1 / 2)], [tnCount rows (1 / 2)],
        [fnCount rows (1 / 2)], n_points⟩
    else
      let tmp := linspace01 n_points
      .ok ⟨tmp.map (tpCount rows), tmp.map (fpCount rows), tmp.map (tnCount rows),
        tmp.map (fnCount rows), n_points⟩
  else .error .multiclassNotImplemented

/-- Splitting a count over a predicate and its complement. -/
theorem countP_and_not {β : Type u} (l : List β) (p q : β → Bool) :
    (l.countP fun a => p a && q a) + (l.countP fun a => p a && !q a) = l.countP p := by
  induction l with
  | nil => rfl
  | cons a t ih =>
    rw [List.countP_cons, List.countP_cons, List.countP_cons]
    by_cases hp : p a
    · by_cases hq : q a <;> simp [hp, hq] <;> omega
    · simp [hp]
      omega

/-- Counting a property of the first components of a zip with an
equal-length list. -/
theorem countP_zip_fst (f : ℚ → Bool) :
    ∀ (ys ps : List ℚ), ys.length = ps.length →
      ((ys.zip ps).countP fun r => f r.1) = ys.countP f := by
  intro ys
  induction ys with
  | nil => intro ps _; rfl
  | cons a t ih =>
    intro ps hlen
    cases ps with
    | nil => exact absurd hlen (by simp)
    | cons b q =>
      rw [List.zip_cons_cons, List.countP_cons, List.countP_cons,
        ih q (by simpa using hlen)]

/-- A duplicate-free list whose members are exactly `0` and `1` has
length two. -/
theorem dedup_length_two (y : List ℚ) (hy : ∀ v ∈ y, v = 0 ∨ v = 1)
    (h0 : (0 : ℚ) ∈ y) (h1 : (1 : ℚ) ∈ y) : y.dedup.length = 2 := by
  have hnd : y.dedup.Nodup := y.nodup_dedup
  have hfin : y.dedup.toFinset = ({0, 1} : Finset ℚ) := by
    ext v
    simp only [List.mem_toFinset, List.mem_dedup, Finset.mem_insert,
      Finset.mem_singleton]
    constructor
    · exact fun hv => hy v hv
    · rintro (rfl | rfl)
      · exact h0
      · exact h1
  have hcard := List.toFinset_card_of_nodup hnd
  rw [hfin] at hcard
  rw [← hcard]
  decide

/-- C10: for a binary `y` (both labels present) parallel to `pred_probs`
and `n_points > 1`, `get_posneg` succeeds with the four arrays of length
`n_points`, and at every threshold index `TP + FN` is the number of
positive examples and `FP + TN` the number of negative examples. -/
theorem get_posneg_partitions (y pred_probs : List ℚ)
    (hy : ∀ v ∈ y, v = 0 ∨ v = 1) (h0 : (0 : ℚ) ∈ y) (h1 : (1 : ℚ) ∈ y)
    (hlen : y.length = pred_probs.length) (n_points : ℕ) (hn : 1 < n_points)
    (p : PosNeg) (hp : get_posneg y pred_probs n_points = .ok p) :
    p.TP.length = n_points ∧ p.FP.length = n_points ∧ p.TN.length = n_points ∧
      p.FN.length = n_points ∧
      ∀ i < n_points,
        p.TP.getD i 0 + p.FN.getD i 0 = y.countP (fun v => decide (v = 1)) ∧
          p.FP.getD i 0 + p.TN.getD i 0 = y.countP (fun v => decide (v = 0)) := by
  rw [get_posneg, if_pos (dedup_length_two y hy h0 h1),
    if_neg (by omega : ¬n_points = 1)] at hp
  injection hp with hp
  subst hp
  have hlin : (linspace01 n_points).length = n_points := by
    rw [linspace01, if_neg (by omega : ¬n_points = 1)]
    simp
  refine ⟨by simpa [List.length_map] using hlin, by simpa [List.length_map] using hlin,
    by simpa [List.length_map] using hlin, by simpa [List.length_map] using hlin, ?_⟩
  intro i hi
  have hi' : i < (linspace01 n_points).length := by rwa [hlin]
  have hget : ∀ f : ℚ → ℕ, ((linspace01 n_points).map f).getD i 0 =
      f ((linspace01 n_points).get ⟨i, hi'⟩) := by
    intro f
    rw [List.getD_eq_getElem?_getD, List.getElem?_map, List.getElem?_eq_getElem hi']
    rfl
  show (((linspace01 n_points).map (tpCount (y.zip pred_probs))).getD i 0 +
      ((linspace01 n_points).map (fnCount (y.zip pred_probs))).getD i 0 =
        y.countP fun v => decide (v = 1)) ∧
    (((linspace01 n_points).map (fpCount (y.zip pred_probs))).getD i 0 +
      ((linspace01 n_points).map (tnCount (y.zip pred_probs))).getD i 0 =
        y.countP fun v => decide (v = 0))
  rw [hget, hget, hget, hget]
  set thr := (linspace01 n_points).get ⟨i, hi'⟩
  have hcompl : ∀ a b : ℚ, decide (b ≤ a) = !decide (a < b) := by
    intro a b
    by_cases h : a < b
    · simp [h, not_le.mpr h]
    · simp [h, not_lt.mp h]
  constructor
  · rw [tpCount, fnCount]
    have hsplit := countP_and_not (y.zip pred_probs)
      (fun r => decide (r.1 = 1)) (fun r => decide (thr < r.2))
    have hfn : ((y.zip pred_probs).countP fun r => decide (r.1 = 1) && decide (r.2 ≤ thr)) =
        ((y.zip pred_probs).countP fun r => decide (r.1 = 1) && !decide (thr < r.2)) := by
      apply List.countP_congr
      intro r _
      simp only [hcompl thr r.2]
    rw [hfn, hsplit, countP_zip_fst (fun v => decide (v = 1)) y pred_probs hlen]
  · rw [fpCount, tnCount]
    have hsplit := countP_and_not (y.zip pred_probs)
      (fun r => decide (r.1 = 0)) (fun r => decide (thr < r.2))
    have htn : ((y.zip pred_probs).countP fun r => decide (r.1 = 0) && decide (r.2 ≤ thr)) =
        ((y.zip pred_probs).countP fun r => decide (r.1 = 0) && !decide (thr < r.2)) := by
      apply List.countP_congr
      intro r _
      simp only [hcompl thr r.2]
    rw [htn, hsplit, countP_zip_fst (fun v => decide (v = 0)) y pred_probs hlen]

/-- Witness for C10 on a two-point data set with two thresholds. -/
theorem get_posneg_partitions_witness :
    get_posneg [1, 0] [1, 0] 2 = .ok ⟨[1, 0], [0, 0], [1, 1], [0, 1], 2⟩ ∧
      ((⟨[1, 0], [0, 0], [1, 1], [0, 1], 2⟩ : PosNeg).TP.length = 2 ∧
        (⟨[1, 0], [0, 0], [1, 1], [0, 1], 2⟩ : PosNeg).FP.length = 2 ∧
        (⟨[1, 0], [0, 0], [1, 1], [0, 1], 2⟩ : PosNeg).TN.length = 2 ∧
        (⟨[1, 0], [0, 0], [1, 1], [0, 1], 2⟩ : PosNeg).FN.length = 2 ∧
        ∀ i < 2,
          (⟨[1, 0], [0, 0], [1, 1], [0, 1], 2⟩ : PosNeg).TP.getD i 0 +
              (⟨[1, 0], [0, 0], [1, 1], [0, 1], 2⟩ : PosNeg).FN.getD i 0 =
            List.countP (fun v => decide (v = 1)) [1, 0] ∧
            (⟨[1, 0], [0, 0], [1, 1], [0, 1], 2⟩ : PosNeg).FP.getD i 0 +
                (⟨[1, 0], [0, 0], [1, 1], [0, 1], 2⟩ : PosNeg).TN.getD i 0 =
              List.countP (fun v => decide (v = 0)) [1, 0]) := by
  have hok : get_posneg [1, 0] [1, 0] 2 = .ok ⟨[1, 0], [0, 0], [1, 1], [0, 1], 2⟩ := by
    rw [get_posneg, if_pos (by decide : ([1, 0] : List ℚ).dedup.length = 2),
      if_neg (by omega : ¬(2 : ℕ) = 1)]
    norm_num [linspace01, tpCount, fpCount, tnCount, fnCount, List.countP_cons,
      List.range_succ]
  exact ⟨hok, get_posneg_partitions [1, 0] [1, 0] (by norm_num) (by norm_num)
    (by norm_num) rfl 2 (by norm_num) _ hok⟩

end DPPVI
